import Mathlib

/-!
Verification of the type-class member-registration phase
(`libsolidity/experimental/analysis/TypeClassMemberRegistration.cpp`).

The development shallowly embeds the phase: the builtin-signature
bootstrap that runs in the analyzer's constructor, the per-class
collector `endVisit`, and the `analyze` entry point, over an explicit
state holding the type system's fresh-variable counter, the
registration store (member tables and operator bindings), and the
error reporter. Fatal diagnostics and internal assertion failures are
modelled with `Except`, carrying the state at the point of failure.
-/

namespace Solidity

/-- Operator tokens. Only the seven tokens bound by this phase are named;
`other n` stands for every remaining token of the lexer's enumeration. -/
inductive Token
  | mul
  | add
  | equal
  | lessThan
  | lessThanOrEqual
  | greaterThan
  | greaterThanOrEqual
  | other : Nat → Token
deriving DecidableEq

/-- Primitive types used by this phase (`PrimitiveType::Integer`,
`PrimitiveType::Bool`); `other n` stands for the rest of the enumeration. -/
inductive PrimitiveType
  | integer
  | boolean
  | other : Nat → PrimitiveType
deriving DecidableEq

/-- Structural types (`Type`): primitives, function types
(`TypeSystemHelpers::functionType`), tuple types
(`TypeSystemHelpers::tupleType`), and type variables, identified by the
index the type system allocated them under. -/
inductive Ty
  | primitive : PrimitiveType → Ty
  | function : Ty → Ty → Ty
  | tuple : List Ty → Ty
  | tvar : Nat → Ty

/-- `TypeClass`: an opaque identifier issued by the prior
`TypeClassRegistration` pass, compared by identity. -/
abbrev TypeClass := Nat

/-- The closed enumeration `BuiltinClass` of compiler-known classes. -/
inductive BuiltinClass
  | integer
  | mul
  | add
  | equal
  | less
  | lessOrEqual
  | greater
  | greaterOrEqual
deriving DecidableEq, Fintype

/-- Association-list map: lookup of the first entry with the given key.
Models `std::map` lookup observationally. -/
def lookupA {α β : Type} [DecidableEq α] : List (α × β) → α → Option β
  | [], _ => none
  | (k, v) :: rest, key => if k = key then some v else lookupA rest key

/-- Association-list map: `m[key] = val` assignment semantics of
`std::map::operator[]` — replace the entry if the key is present,
otherwise append a new entry. -/
def setA {α β : Type} [DecidableEq α] : List (α × β) → α → β → List (α × β)
  | [], key, val => [(key, val)]
  | (k, v) :: rest, key, val =>
    if k = key then (k, val) :: rest else (k, v) :: setA rest key val

/-- Association-list map: `std::map::emplace` semantics — insert only when
the key is absent; the boolean reports whether insertion happened. -/
def emplaceA {α β : Type} [DecidableEq α] (m : List (α × β)) (key : α) (val : β) :
    List (α × β) × Bool :=
  match lookupA m key with
  | some _ => (m, false)
  | none => (m ++ [(key, val)], true)

/-- The registration store (`TypeClassMemberRegistration::GlobalAnnotation` in
the source): per-class member tables `typeClassFunctions` and the global
operator-binding table `operators`. -/
structure GlobalAnnot where
  typeClassFunctions : List (TypeClass × List (String × Ty))
  operators : List (Token × (TypeClass × String))

/-- The store as it is before the analyzer's constructor runs. -/
def emptyAnnot : GlobalAnnot := ⟨[], []⟩

/-- The external collaborators fixed before this phase runs: the identity
store's builtin-class map (`TypeClassRegistration` annotation
`builtinClasses`) and, per class, its declared type variable
(`TypeSystem::typeClassInfo(...).typeVariable`). -/
structure Analysis where
  builtinClasses : BuiltinClass → TypeClass
  typeClassVariable : TypeClass → Ty

/-- `defineConversion` from the constructor: registers the single member
`function(primitive-from-type) -> self-type` for a builtin class. -/
def defineConversion (a : Analysis) (ann : GlobalAnnot) (bc : BuiltinClass)
    (fromType : PrimitiveType) (functionName : String) : GlobalAnnot :=
  let tc := a.builtinClasses bc
  { ann with
    typeClassFunctions :=
      setA ann.typeClassFunctions tc
        [(functionName, Ty.function (Ty.primitive fromType) (a.typeClassVariable tc))] }

/-- `defineBinaryMonoidalOperator` from the constructor: binds the token and
registers the single member `function(tuple(self, self)) -> self`. -/
def defineBinaryMonoidalOperator (a : Analysis) (ann : GlobalAnnot) (bc : BuiltinClass)
    (tok : Token) (functionName : String) : GlobalAnnot :=
  let tc := a.builtinClasses bc
  let v := a.typeClassVariable tc
  { typeClassFunctions :=
      setA ann.typeClassFunctions tc
        [(functionName, Ty.function (Ty.tuple [v, v]) v)],
    operators := (emplaceA ann.operators tok (tc, functionName)).1 }

/-- `defineBinaryCompareOperator` from the constructor: binds the token and
registers the single member `function(tuple(self, self)) -> bool`. -/
def defineBinaryCompareOperator (a : Analysis) (ann : GlobalAnnot) (bc : BuiltinClass)
    (tok : Token) (functionName : String) : GlobalAnnot :=
  let tc := a.builtinClasses bc
  let v := a.typeClassVariable tc
  { typeClassFunctions :=
      setA ann.typeClassFunctions tc
        [(functionName, Ty.function (Ty.tuple [v, v]) (Ty.primitive PrimitiveType.boolean))],
    operators := (emplaceA ann.operators tok (tc, functionName)).1 }

/-- The builtin bootstrap: the body of
`TypeClassMemberRegistration::TypeClassMemberRegistration`, in source order. -/
def bootstrap (a : Analysis) (ann : GlobalAnnot) : GlobalAnnot :=
  let ann := defineConversion a ann .integer .integer "fromInteger"
  let ann := defineBinaryMonoidalOperator a ann .mul .mul "mul"
  let ann := defineBinaryMonoidalOperator a ann .add .add "add"
  let ann := defineBinaryCompareOperator a ann .equal .equal "eq"
  let ann := defineBinaryCompareOperator a ann .less .lessThan "lt"
  let ann := defineBinaryCompareOperator a ann .lessOrEqual .lessThanOrEqual "leq"
  let ann := defineBinaryCompareOperator a ann .greater .greaterThan "gt"
  let ann := defineBinaryCompareOperator a ann .greaterOrEqual .greaterThanOrEqual "geq"
  ann

/-- The type system's fresh-variable allocator state: `freshTypeVariable`
hands out `Ty.tvar freshCounter` and increments the counter. -/
structure TypeSystem where
  freshCounter : Nat
deriving DecidableEq

/-- The shared diagnostic sink (`langutil::ErrorReporter`): the accumulated
list of reported errors, each `(error id, source location, message)`. -/
structure ErrorReporter where
  errors : List (Nat × Nat × String)
deriving DecidableEq

/-- `ErrorReporter::hasErrors`. -/
def ErrorReporter.hasErrors (e : ErrorReporter) : Bool :=
  !e.errors.isEmpty

/-- The mutable state threaded through the phase: the type system, the
registration store and the diagnostic sink. -/
structure State where
  typeSystem : TypeSystem
  ann : GlobalAnnot
  reporter : ErrorReporter

/-- A member-function declaration of a user class: its name and its source
location (locations abstracted to numbers). -/
structure FunctionDefinition where
  name : String
  location : Nat
deriving DecidableEq

/-- A sub-node of a class declaration: either a function definition or some
other node kind (on which the collector's `dynamic_cast` yields null). -/
inductive ASTNode
  | funDef : FunctionDefinition → ASTNode
  | otherNode : Nat → ASTNode

/-- A user type-class declaration: its sub-nodes in declaration order and the
`TypeClass` the prior `TypeClassRegistration` pass assigned it (if any). -/
structure TypeClassDefinition where
  typeClassAnnot : Option TypeClass
  subNodes : List ASTNode

/-- Abnormal termination of the collector: an internal assertion failure
(`solAssert`, an internal-consistency error, not user-facing) or a fatal
user-facing diagnostic (`ErrorReporter::fatalTypeError`, which records the
diagnostic and throws). -/
inductive Failure
  | internalAssert
  | fatalDiag : Nat → Nat → String → Failure

/-- Outcome of the member-collection loop, carrying the fresh-variable
counter and the local `functionTypes` table as they stand when the loop
ends (normally or abnormally). -/
inductive CollectResult
  | ok : Nat → List (String × Ty) → CollectResult
  | assertFail : Nat → CollectResult
  | fatal : Nat → List (String × Ty) → Nat → CollectResult

/-- The member-collection loop of `endVisit(TypeClassDefinition)`: for each
sub-node, assert it is a function definition, allocate two fresh type
variables, build `function(fresh, fresh)`, and `emplace` it under the
member's name; a failed emplace (duplicate name) raises the fatal
diagnostic at the current member's location. The two fresh variables are
allocated before the duplicate check, so the counter advances even for a
discarded member. -/
def collect (counter : Nat) (functionTypes : List (String × Ty)) :
    List ASTNode → CollectResult
  | [] => .ok counter functionTypes
  | .otherNode _ :: _ => .assertFail counter
  | .funDef fd :: rest =>
    let domainVar := Ty.tvar counter
    let codomainVar := Ty.tvar (counter + 1)
    let functionType := Ty.function domainVar codomainVar
    match emplaceA functionTypes fd.name functionType with
    | (functionTypes', true) => collect (counter + 2) functionTypes' rest
    | (functionTypes', false) => .fatal (counter + 2) functionTypes' fd.location

/-- The message of diagnostic 3195. -/
def dupMemberMsg : String := "Function in type class declared multiple times."

/-- `TypeClassMemberRegistration::endVisit(TypeClassDefinition)`: resolve the
class's `TypeClass` (its absence is an internal assertion failure), run the
member-collection loop (visiting the class's type-variable node has no
effect in this pass), and on success store the completed table under the
class's key. A fatal diagnostic or assertion failure unwinds with the state
at the point of failure, before the table is stored. -/
def endVisit (s : State) (d : TypeClassDefinition) : Except (Failure × State) State :=
  match d.typeClassAnnot with
  | none => .error (.internalAssert, s)
  | some typeClass =>
    match collect s.typeSystem.freshCounter [] d.subNodes with
    | .assertFail c => .error (.internalAssert, { s with typeSystem := ⟨c⟩ })
    | .fatal c _ loc =>
      .error (.fatalDiag 3195 loc dupMemberMsg,
        { s with
          typeSystem := ⟨c⟩,
          reporter := ⟨s.reporter.errors ++ [(3195, loc, dupMemberMsg)]⟩ })
    | .ok c functionTypes =>
      .ok { s with
        typeSystem := ⟨c⟩,
        ann := { s.ann with
          typeClassFunctions := setA s.ann.typeClassFunctions typeClass functionTypes } }

/-- A source unit, reduced to the type-class declarations the traversal
visits, in source order (other node kinds do not interact with this pass). -/
structure SourceUnit where
  classes : List TypeClassDefinition

/-- The traversal performed by `_sourceUnit.accept(*this)`: `endVisit` fires
once per class declaration in source order; a thrown failure propagates. -/
def runTraversal (s : State) : List TypeClassDefinition → Except (Failure × State) State
  | [] => .ok s
  | d :: rest =>
    match endVisit s d with
    | .error e => .error e
    | .ok s' => runTraversal s' rest

/-- `TypeClassMemberRegistration::analyze`: run the traversal, then return
`!m_errorReporter.hasErrors()`. A fatal diagnostic thrown during the
traversal propagates out of `analyze` (there is no handler here). -/
def analyze (s : State) (su : SourceUnit) : Except (Failure × State) (State × Bool) :=
  match runTraversal s su.classes with
  | .error e => .error e
  | .ok s' => .ok (s', !s'.reporter.hasErrors)

/-- The state carried by either outcome of `endVisit`. -/
def resultState : Except (Failure × State) State → State
  | .ok s => s
  | .error (_, s) => s

/-- The state carried by either outcome of `analyze`. -/
def analyzeState : Except (Failure × State) (State × Bool) → State
  | .ok (s, _) => s
  | .error (_, s) => s

/-- Keys of an association-list map. -/
def keysOf {α β : Type} (m : List (α × β)) : List α :=
  m.map Prod.fst

/-- The member table the collector builds for a duplicate-free run starting
at fresh-variable counter `counter`: the i-th member maps to
`function(tvar (counter + 2i)) -> tvar (counter + 2i + 1)`. -/
def memberTableFrom (counter : Nat) : List FunctionDefinition → List (String × Ty)
  | [] => []
  | fd :: rest =>
    (fd.name, Ty.function (Ty.tvar counter) (Ty.tvar (counter + 1)))
      :: memberTableFrom (counter + 2) rest

/-- All type-variable indices appearing as a domain or codomain of a
signature in a member table, in table order. -/
def sigVars : List (String × Ty) → List Nat
  | [] => []
  | (_, Ty.function (Ty.tvar m) (Ty.tvar n)) :: rest => m :: n :: sigVars rest
  | _ :: rest => sigVars rest

/-- The first member whose name repeats an already-seen name, together with
its index in the list; `seen` accumulates the names already processed. -/
def firstDupFrom (seen : List String) : List FunctionDefinition → Option (Nat × FunctionDefinition)
  | [] => none
  | fd :: rest =>
    if fd.name ∈ seen then some (0, fd)
    else (firstDupFrom (seen ++ [fd.name]) rest).map (fun p => (p.1 + 1, p.2))

/-- How many members of the list the collection loop processes: all of them
when the names are duplicate-free, otherwise every member up to and
including the first duplicate. -/
def processedCount (fds : List FunctionDefinition) : Nat :=
  match firstDupFrom [] fds with
  | none => fds.length
  | some (i, _) => i + 1

/-- A concrete identity store for witnesses: distinct `TypeClass` ids 0–7 for
the builtin classes, and class `k`'s declared type variable is
`tvar (1000 + k)`. -/
def sampleAnalysis : Analysis where
  builtinClasses := fun bc =>
    match bc with
    | .integer => 0
    | .mul => 1
    | .add => 2
    | .equal => 3
    | .less => 4
    | .lessOrEqual => 5
    | .greater => 6
    | .greaterOrEqual => 7
  typeClassVariable := fun tc => Ty.tvar (1000 + tc)

/-- A concrete post-bootstrap state for witnesses: counter 0, the
bootstrapped store, an empty diagnostic sink. -/
def sampleState : State where
  typeSystem := ⟨0⟩
  ann := bootstrap sampleAnalysis emptyAnnot
  reporter := ⟨[]⟩

/-- Members of the duplicate-member scenario: `show` declared three times. -/
def showFds : List FunctionDefinition :=
  [⟨"show", 10⟩, ⟨"show", 20⟩, ⟨"show", 30⟩]

/-- A user class `Show` (assigned `TypeClass` 100) with three same-named
members. -/
def showClassDup : TypeClassDefinition :=
  { typeClassAnnot := some 100, subNodes := showFds.map ASTNode.funDef }

/-- Members of the distinct-names scenario: `cmp1` and `cmp2`. -/
def ordFds : List FunctionDefinition :=
  [⟨"cmp1", 40⟩, ⟨"cmp2", 50⟩]

/-- A user class `Ord` (assigned `TypeClass` 200) with two distinct members. -/
def ordClass : TypeClassDefinition :=
  { typeClassAnnot := some 200, subNodes := ordFds.map ASTNode.funDef }

/-- A one-class source unit for witnesses. -/
def sampleUnit : SourceUnit := ⟨[ordClass]⟩

/-- The state after analyzing `sampleUnit` from `sampleState`. -/
def sampleAfter : State := analyzeState (analyze sampleState sampleUnit)

/-- A builtin class's self type: the declared type variable of its
`TypeClass`. -/
def selfVar (a : Analysis) (bc : BuiltinClass) : Ty :=
  a.typeClassVariable (a.builtinClasses bc)

/-- The operator table is exactly the seven bootstrap bindings — each token
mapped to the right builtin class and member name — and no token outside
the fixed set has a binding. -/
def operatorTableExact (a : Analysis) : Prop :=
  (bootstrap a emptyAnnot).operators =
    [(Token.mul, (a.builtinClasses .mul, "mul")),
     (Token.add, (a.builtinClasses .add, "add")),
     (Token.equal, (a.builtinClasses .equal, "eq")),
     (Token.lessThan, (a.builtinClasses .less, "lt")),
     (Token.lessThanOrEqual, (a.builtinClasses .lessOrEqual, "leq")),
     (Token.greaterThan, (a.builtinClasses .greater, "gt")),
     (Token.greaterThanOrEqual, (a.builtinClasses .greaterOrEqual, "geq"))] ∧
  ∀ t : Token,
    t ∉ [Token.mul, Token.add, Token.equal, Token.lessThan, Token.lessThanOrEqual,
      Token.greaterThan, Token.greaterThanOrEqual] →
    lookupA (bootstrap a emptyAnnot).operators t = none

/-- Every builtin class's member table after bootstrap is exactly the one
canonical member: the conversion class maps `fromInteger` to
`function(integer-literal) -> self`, the monoid classes map their member to
`function(tuple(self, self)) -> self`, the comparison classes map theirs to
`function(tuple(self, self)) -> bool`. -/
def canonicalBuiltinTables (a : Analysis) : Prop :=
  lookupA (bootstrap a emptyAnnot).typeClassFunctions (a.builtinClasses .integer) =
    some [("fromInteger",
      Ty.function (Ty.primitive .integer) (selfVar a .integer))] ∧
  lookupA (bootstrap a emptyAnnot).typeClassFunctions (a.builtinClasses .mul) =
    some [("mul",
      Ty.function (Ty.tuple [selfVar a .mul, selfVar a .mul]) (selfVar a .mul))] ∧
  lookupA (bootstrap a emptyAnnot).typeClassFunctions (a.builtinClasses .add) =
    some [("add",
      Ty.function (Ty.tuple [selfVar a .add, selfVar a .add]) (selfVar a .add))] ∧
  lookupA (bootstrap a emptyAnnot).typeClassFunctions (a.builtinClasses .equal) =
    some [("eq",
      Ty.function (Ty.tuple [selfVar a .equal, selfVar a .equal])
        (Ty.primitive .boolean))] ∧
  lookupA (bootstrap a emptyAnnot).typeClassFunctions (a.builtinClasses .less) =
    some [("lt",
      Ty.function (Ty.tuple [selfVar a .less, selfVar a .less])
        (Ty.primitive .boolean))] ∧
  lookupA (bootstrap a emptyAnnot).typeClassFunctions (a.builtinClasses .lessOrEqual) =
    some [("leq",
      Ty.function (Ty.tuple [selfVar a .lessOrEqual, selfVar a .lessOrEqual])
        (Ty.primitive .boolean))] ∧
  lookupA (bootstrap a emptyAnnot).typeClassFunctions (a.builtinClasses .greater) =
    some [("gt",
      Ty.function (Ty.tuple [selfVar a .greater, selfVar a .greater])
        (Ty.primitive .boolean))] ∧
  lookupA (bootstrap a emptyAnnot).typeClassFunctions (a.builtinClasses .greaterOrEqual) =
    some [("geq",
      Ty.function (Ty.tuple [selfVar a .greaterOrEqual, selfVar a .greaterOrEqual])
        (Ty.primitive .boolean))]

/-- The `analyze` contract: when it returns, the result is the negation of
the sink's accumulated error state, the sink was not reset (here: not even
touched) by a successful traversal; and when a fatal diagnostic propagates,
the sink still holds everything it held before plus what the run appended. -/
def analyzeSinkSpec (s : State) (su : SourceUnit) : Prop :=
  (∀ s' ok, analyze s su = .ok (s', ok) →
    ok = !s'.reporter.hasErrors ∧
    s'.reporter = s.reporter ∧
    (s.reporter.errors = [] → ok = true)) ∧
  (∀ f s', analyze s su = .error (f, s') →
    ∃ new, s'.reporter.errors = s.reporter.errors ++ new)

/-- Frame of a user-class store: `endVisit` leaves the operator table
unchanged and touches no member table other than its own class's; on
failure it leaves the whole store unchanged. -/
def endVisitFrameSpec (s : State) (d : TypeClassDefinition) (tc : TypeClass) : Prop :=
  (∀ s', endVisit s d = .ok s' →
    s'.ann.operators = s.ann.operators ∧
    ∀ tc', tc' ≠ tc →
      lookupA s'.ann.typeClassFunctions tc' = lookupA s.ann.typeClassFunctions tc') ∧
  (∀ f s', endVisit s d = .error (f, s') → s'.ann = s.ann)

/-- The table stored for a duplicate-free user class: one entry per declared
name, each a function type between two fresh type variables, all the
variables pairwise distinct within and across members. -/
def distinctMembersTableSpec (s : State) (d : TypeClassDefinition)
    (fds : List FunctionDefinition) (tc : TypeClass) : Prop :=
  ∃ s', endVisit s d = .ok s' ∧
    lookupA s'.ann.typeClassFunctions tc =
      some (memberTableFrom s.typeSystem.freshCounter fds) ∧
    keysOf (memberTableFrom s.typeSystem.freshCounter fds) =
      fds.map FunctionDefinition.name ∧
    (∀ e ∈ memberTableFrom s.typeSystem.freshCounter fds,
      ∃ m n, e.2 = Ty.function (Ty.tvar m) (Ty.tvar n) ∧ m ≠ n ∧
        s.typeSystem.freshCounter ≤ m ∧ s.typeSystem.freshCounter ≤ n) ∧
    (sigVars (memberTableFrom s.typeSystem.freshCounter fds)).Nodup

/-! Association-map lemmas. -/

theorem lookupA_eq_none_iff {α β : Type} [DecidableEq α] (m : List (α × β)) (k : α) :
    lookupA m k = none ↔ k ∉ keysOf m := by
  induction m with
  | nil => simp [lookupA, keysOf]
  | cons kv rest ih =>
    obtain ⟨k', v'⟩ := kv
    by_cases hk : k' = k
    · subst hk
      simp [lookupA, keysOf]
    · rw [show lookupA ((k', v') :: rest) k = lookupA rest k from by simp [lookupA, hk], ih]
      simp only [keysOf, List.map_cons, List.mem_cons]
      constructor
      · intro h hor
        rcases hor with he | hin
        · exact hk he.symm
        · exact h hin
      · intro h hin
        exact h (Or.inr hin)

theorem emplaceA_not_mem {α β : Type} [DecidableEq α] (m : List (α × β)) (k : α) (v : β)
    (h : k ∉ keysOf m) : emplaceA m k v = (m ++ [(k, v)], true) := by
  unfold emplaceA
  rw [(lookupA_eq_none_iff m k).mpr h]

theorem emplaceA_mem {α β : Type} [DecidableEq α] (m : List (α × β)) (k : α) (v : β)
    (h : k ∈ keysOf m) : emplaceA m k v = (m, false) := by
  unfold emplaceA
  cases hl : lookupA m k with
  | none => exact absurd ((lookupA_eq_none_iff m k).mp hl) (by simp [h])
  | some w => rfl

theorem lookupA_setA {α β : Type} [DecidableEq α] (m : List (α × β)) (key key' : α) (val : β) :
    lookupA (setA m key val) key' = if key = key' then some val else lookupA m key' := by
  induction m with
  | nil => simp [setA, lookupA]
  | cons kv rest ih =>
    obtain ⟨k, v⟩ := kv
    by_cases hk : k = key
    · subst hk
      simp only [setA, if_pos rfl, lookupA]
      split_ifs <;> rfl
    · simp only [setA, if_neg hk, lookupA]
      by_cases hk' : k = key'
      · subst hk'
        have : ¬ key = k := fun h => hk h.symm
        simp [this]
      · simp [hk', ih]

theorem keysOf_append_entry {α β : Type} (m : List (α × β)) (k : α) (v : β) :
    keysOf (m ++ [(k, v)]) = keysOf m ++ [k] := by
  simp [keysOf]

/-! Characterization of `firstDupFrom`. -/

theorem firstDupFrom_eq_none_iff (fds : List FunctionDefinition) :
    ∀ seen : List String,
      firstDupFrom seen fds = none ↔
        ((∀ fd ∈ fds, fd.name ∉ seen) ∧ (fds.map FunctionDefinition.name).Nodup) := by
  induction fds with
  | nil => intro seen; simp [firstDupFrom]
  | cons fd rest ih =>
    intro seen
    by_cases hmem : fd.name ∈ seen
    · simp [firstDupFrom, hmem]
    · simp only [firstDupFrom, if_neg hmem, Option.map_eq_none', ih, List.map_cons,
        List.nodup_cons, List.mem_cons, List.mem_append, List.mem_singleton, List.mem_map,
        List.not_mem_nil, or_false]
      constructor
      · rintro ⟨hnotin, hnd⟩
        refine ⟨?_, ?_, hnd⟩
        · rintro fd' (rfl | hfd')
          · exact hmem
          · exact fun hc => (hnotin fd' hfd') (Or.inl hc)
        · rintro ⟨fd', hfd', hname⟩
          exact (hnotin fd' hfd') (Or.inr hname)
      · rintro ⟨hall, hnotname, hnd⟩
        refine ⟨?_, hnd⟩
        intro fd' hfd'
        rintro (hseen | hname)
        · exact hall fd' (Or.inr hfd') hseen
        · exact hnotname ⟨fd', hfd', hname⟩

/-! Characterization of the collection loop. -/

theorem collect_ok (fds : List FunctionDefinition) :
    ∀ (c : Nat) (acc : List (String × Ty)),
      firstDupFrom (keysOf acc) fds = none →
      collect c acc (fds.map ASTNode.funDef) =
        .ok (c + 2 * fds.length) (acc ++ memberTableFrom c fds) := by
  induction fds with
  | nil =>
    intro c acc _
    simp [collect, memberTableFrom]
  | cons fd rest ih =>
    intro c acc h
    have hmem : fd.name ∉ keysOf acc := by
      intro hc
      simp [firstDupFrom, hc] at h
    have h' : firstDupFrom (keysOf acc ++ [fd.name]) rest = none := by
      simp only [firstDupFrom, if_neg hmem, Option.map_eq_none'] at h
      exact h
    simp only [List.map_cons, collect]
    rw [emplaceA_not_mem acc fd.name _ hmem]
    show collect (c + 2) (acc ++ [(fd.name, Ty.function (Ty.tvar c) (Ty.tvar (c + 1)))])
      (List.map ASTNode.funDef rest) = _
    rw [ih (c + 2) (acc ++ [(fd.name, Ty.function (Ty.tvar c) (Ty.tvar (c + 1)))])
      (by rw [keysOf_append_entry]; exact h')]
    have harith : c + 2 + 2 * rest.length = c + 2 * (rest.length + 1) := by omega
    rw [harith]
    simp [memberTableFrom, List.append_assoc]

theorem collect_fatal (fds : List FunctionDefinition) :
    ∀ (c : Nat) (acc : List (String × Ty)) (i : Nat) (fd : FunctionDefinition),
      firstDupFrom (keysOf acc) fds = some (i, fd) →
      ∃ tbl, collect c acc (fds.map ASTNode.funDef) = .fatal (c + 2 * (i + 1)) tbl fd.location := by
  induction fds with
  | nil =>
    intro c acc i fd h
    simp [firstDupFrom] at h
  | cons fd' rest ih =>
    intro c acc i fd h
    by_cases hmem : fd'.name ∈ keysOf acc
    · simp only [firstDupFrom, if_pos hmem, Option.some_inj, Prod.mk.injEq] at h
      obtain ⟨hi, hfd⟩ := h
      subst hfd
      subst hi
      refine ⟨acc, ?_⟩
      simp only [List.map_cons, collect]
      rw [emplaceA_mem acc fd'.name _ hmem]
    · simp only [firstDupFrom, if_neg hmem] at h
      rw [Option.map_eq_some'] at h
      obtain ⟨⟨i', fd''⟩, hinner, heq⟩ := h
      simp only [Prod.mk.injEq] at heq
      obtain ⟨hi, hfd⟩ := heq
      subst hfd
      subst hi
      simp only [List.map_cons, collect]
      rw [emplaceA_not_mem acc fd'.name _ hmem]
      obtain ⟨tbl, htbl⟩ := ih (c + 2)
        (acc ++ [(fd'.name, Ty.function (Ty.tvar c) (Ty.tvar (c + 1)))]) i' fd''
        (by rw [keysOf_append_entry]; exact hinner)
      refine ⟨tbl, ?_⟩
      show collect (c + 2) (acc ++ [(fd'.name, Ty.function (Ty.tvar c) (Ty.tvar (c + 1)))])
        (List.map ASTNode.funDef rest) = _
      rw [htbl]
      have harith : c + 2 + 2 * (i' + 1) = c + 2 * (i' + 1 + 1) := by omega
      rw [harith]

theorem collect_no_assert (fds : List FunctionDefinition) :
    ∀ (c : Nat) (acc : List (String × Ty)) (c' : Nat),
      collect c acc (fds.map ASTNode.funDef) ≠ .assertFail c' := by
  induction fds with
  | nil =>
    intro c acc c'
    simp [collect]
  | cons fd rest ih =>
    intro c acc c'
    simp only [List.map_cons, collect]
    rcases he : emplaceA acc fd.name (Ty.function (Ty.tvar c) (Ty.tvar (c + 1))) with ⟨m, b⟩
    cases b
    · intro hcontra
      exact CollectResult.noConfusion hcontra
    · exact ih (c + 2) m c'

/-! Invariants of `endVisit` and the traversal. -/

theorem endVisit_ok_reporter (s : State) (d : TypeClassDefinition) (s' : State)
    (h : endVisit s d = .ok s') : s'.reporter = s.reporter := by
  unfold endVisit at h
  split at h
  · exact absurd h (by simp)
  · split at h
    · exact absurd h (by simp)
    · exact absurd h (by simp)
    · simp only [Except.ok.injEq] at h
      rw [← h]

theorem endVisit_ok_operators (s : State) (d : TypeClassDefinition) (s' : State)
    (h : endVisit s d = .ok s') : s'.ann.operators = s.ann.operators := by
  unfold endVisit at h
  split at h
  · exact absurd h (by simp)
  · split at h
    · exact absurd h (by simp)
    · exact absurd h (by simp)
    · simp only [Except.ok.injEq] at h
      rw [← h]

theorem endVisit_error_state (s : State) (d : TypeClassDefinition) (f : Failure) (s' : State)
    (h : endVisit s d = .error (f, s')) :
    s'.ann = s.ann ∧ ∃ new, s'.reporter.errors = s.reporter.errors ++ new := by
  unfold endVisit at h
  split at h
  · simp only [Except.error.injEq, Prod.mk.injEq] at h
    rw [← h.2]
    exact ⟨rfl, [], by simp⟩
  · split at h
    · simp only [Except.error.injEq, Prod.mk.injEq] at h
      rw [← h.2]
      exact ⟨rfl, [], by simp⟩
    · simp only [Except.error.injEq, Prod.mk.injEq] at h
      rw [← h.2]
      refine ⟨rfl, [(3195, _, dupMemberMsg)], rfl⟩
    · exact absurd h (by simp)

theorem endVisit_ok_tcf (s : State) (d : TypeClassDefinition) (tc : TypeClass) (s' : State)
    (htc : d.typeClassAnnot = some tc) (h : endVisit s d = .ok s') :
    ∃ tbl, s'.ann.typeClassFunctions = setA s.ann.typeClassFunctions tc tbl := by
  unfold endVisit at h
  rw [htc] at h
  split at h
  · exact absurd h (by simp)
  · rename_i tc2 heq2
    injection heq2 with he2
    subst he2
    split at h
    · exact absurd h (by simp)
    · exact absurd h (by simp)
    · simp only [Except.ok.injEq] at h
      rw [← h]
      exact ⟨_, rfl⟩

theorem runTraversal_ok_reporter (ds : List TypeClassDefinition) :
    ∀ (s s' : State), runTraversal s ds = .ok s' → s'.reporter = s.reporter := by
  induction ds with
  | nil =>
    intro s s' h
    simp only [runTraversal, Except.ok.injEq] at h
    rw [← h]
  | cons d rest ih =>
    intro s s' h
    unfold runTraversal at h
    split at h
    · exact absurd h (by simp)
    · rename_i smid hmid
      rw [ih smid s' h, endVisit_ok_reporter s d smid hmid]

theorem runTraversal_error_reporter (ds : List TypeClassDefinition) :
    ∀ (s : State) (f : Failure) (s' : State), runTraversal s ds = .error (f, s') →
      ∃ new, s'.reporter.errors = s.reporter.errors ++ new := by
  induction ds with
  | nil =>
    intro s f s' h
    simp [runTraversal] at h
  | cons d rest ih =>
    intro s f s' h
    unfold runTraversal at h
    split at h
    · rename_i e he
      obtain ⟨f', smid⟩ := e
      simp only [Except.error.injEq] at h
      injection h with h1 h2
      exact h2 ▸ (endVisit_error_state s d f' smid he).2
    · rename_i smid hmid
      obtain ⟨new, hnew⟩ := ih smid f s' h
      rw [endVisit_ok_reporter s d smid hmid] at hnew
      exact ⟨new, hnew⟩

theorem runTraversal_operators (ds : List TypeClassDefinition) :
    ∀ s : State, (resultState (runTraversal s ds)).ann.operators = s.ann.operators := by
  induction ds with
  | nil => intro s; rfl
  | cons d rest ih =>
    intro s
    unfold runTraversal
    split
    · rename_i e he
      obtain ⟨f', smid⟩ := e
      rw [show resultState (Except.error (f', smid)) = smid from rfl,
        ((endVisit_error_state s d f' smid he).1 ▸ rfl :
          smid.ann.operators = s.ann.operators)]
    · rename_i smid hmid
      rw [ih smid, endVisit_ok_operators s d smid hmid]

theorem analyzeState_eq_run (s : State) (su : SourceUnit) :
    analyzeState (analyze s su) = resultState (runTraversal s su.classes) := by
  unfold analyze
  split
  · rename_i e he
    obtain ⟨f', s'⟩ := e
    rw [he]
    rfl
  · rename_i s' hok
    rw [hok]
    rfl

/-! Full characterization of `endVisit` on well-formed classes. -/

theorem endVisit_ok_spec (s : State) (d : TypeClassDefinition)
    (fds : List FunctionDefinition) (tc : TypeClass)
    (hnodes : d.subNodes = fds.map ASTNode.funDef)
    (htc : d.typeClassAnnot = some tc)
    (hdup : firstDupFrom [] fds = none) :
    endVisit s d = .ok
      { typeSystem := ⟨s.typeSystem.freshCounter + 2 * fds.length⟩,
        ann := ⟨setA s.ann.typeClassFunctions tc
            (memberTableFrom s.typeSystem.freshCounter fds),
          s.ann.operators⟩,
        reporter := s.reporter } := by
  unfold endVisit
  rw [htc, hnodes]
  rw [collect_ok fds s.typeSystem.freshCounter [] (by exact hdup)]
  rfl

theorem endVisit_fatal_spec (s : State) (d : TypeClassDefinition)
    (fds : List FunctionDefinition) (tc : TypeClass) (i : Nat) (fd : FunctionDefinition)
    (hnodes : d.subNodes = fds.map ASTNode.funDef)
    (htc : d.typeClassAnnot = some tc)
    (hdup : firstDupFrom [] fds = some (i, fd)) :
    endVisit s d = .error (.fatalDiag 3195 fd.location dupMemberMsg,
      { typeSystem := ⟨s.typeSystem.freshCounter + 2 * (i + 1)⟩,
        ann := s.ann,
        reporter := ⟨s.reporter.errors ++ [(3195, fd.location, dupMemberMsg)]⟩ }) := by
  unfold endVisit
  rw [htc, hnodes]
  obtain ⟨tbl, htbl⟩ :=
    collect_fatal fds s.typeSystem.freshCounter [] i fd (by exact hdup)
  rw [htbl]

/-! Shape of the duplicate-free member table. -/

theorem keysOf_memberTableFrom (fds : List FunctionDefinition) :
    ∀ c, keysOf (memberTableFrom c fds) = fds.map FunctionDefinition.name := by
  induction fds with
  | nil => intro c; simp [memberTableFrom, keysOf]
  | cons fd rest ih =>
    intro c
    simp [memberTableFrom, keysOf] at ih ⊢
    exact ih (c + 2)

theorem memberTableFrom_entry_shape (fds : List FunctionDefinition) :
    ∀ c, ∀ e ∈ memberTableFrom c fds,
      ∃ m n, e.2 = Ty.function (Ty.tvar m) (Ty.tvar n) ∧ m ≠ n ∧ c ≤ m ∧ c ≤ n := by
  induction fds with
  | nil => intro c e he; simp [memberTableFrom] at he
  | cons fd rest ih =>
    intro c e he
    simp only [memberTableFrom, List.mem_cons] at he
    rcases he with rfl | he
    · exact ⟨c, c + 1, rfl, by omega, le_refl c, by omega⟩
    · obtain ⟨m, n, hshape, hne, hm, hn⟩ := ih (c + 2) e he
      exact ⟨m, n, hshape, hne, by omega, by omega⟩

theorem sigVars_memberTableFrom_lb (fds : List FunctionDefinition) :
    ∀ c v, v ∈ sigVars (memberTableFrom c fds) → c ≤ v := by
  induction fds with
  | nil => intro c v h; simp [memberTableFrom, sigVars] at h
  | cons fd rest ih =>
    intro c v h
    simp only [memberTableFrom, sigVars, List.mem_cons] at h
    rcases h with rfl | rfl | h
    · exact le_refl v
    · omega
    · have := ih (c + 2) v h
      omega

theorem sigVars_memberTableFrom_nodup (fds : List FunctionDefinition) :
    ∀ c, (sigVars (memberTableFrom c fds)).Nodup := by
  induction fds with
  | nil => intro c; simp [memberTableFrom, sigVars]
  | cons fd rest ih =>
    intro c
    simp only [memberTableFrom, sigVars, List.nodup_cons, List.mem_cons]
    refine ⟨?_, ?_, ih (c + 2)⟩
    · rintro (h | h)
      · omega
      · exact absurd (sigVars_memberTableFrom_lb rest (c + 2) c h) (by omega)
    · intro h
      exact absurd (sigVars_memberTableFrom_lb rest (c + 2) (c + 1) h) (by omega)

/-! Claim theorems. -/

/-- C2: after builtin bootstrap the operator-binding table contains exactly
one binding for each of the seven fixed operator tokens — multiply to
(Mul, "mul"), plus to (Add, "add"), equal to (Equal, "eq"), less-than to
(Less, "lt"), less-or-equal to (LessOrEqual, "leq"), greater-than to
(Greater, "gt"), greater-or-equal to (GreaterOrEqual, "geq") — and no
binding exists for any token outside that set. -/
theorem bootstrap_operator_table_exact (a : Analysis) : operatorTableExact a := by
  have hops : (bootstrap a emptyAnnot).operators =
      [(Token.mul, (a.builtinClasses .mul, "mul")),
       (Token.add, (a.builtinClasses .add, "add")),
       (Token.equal, (a.builtinClasses .equal, "eq")),
       (Token.lessThan, (a.builtinClasses .less, "lt")),
       (Token.lessThanOrEqual, (a.builtinClasses .lessOrEqual, "leq")),
       (Token.greaterThan, (a.builtinClasses .greater, "gt")),
       (Token.greaterThanOrEqual, (a.builtinClasses .greaterOrEqual, "geq"))] := rfl
  refine ⟨hops, ?_⟩
  intro t ht
  rw [hops]
  cases t <;> simp_all [lookupA]

/-- C2 witness: at the concrete identity store, the table is the seven-entry
list and a token outside the set (here `other 0`) has no binding. -/
theorem bootstrap_operator_table_exact_witness :
    operatorTableExact sampleAnalysis ∧
    (Token.other 0 ∉ [Token.mul, Token.add, Token.equal, Token.lessThan,
      Token.lessThanOrEqual, Token.greaterThan, Token.greaterThanOrEqual] ∧
     lookupA (bootstrap sampleAnalysis emptyAnnot).operators (Token.other 0) = none) :=
  ⟨bootstrap_operator_table_exact sampleAnalysis, by decide,
    (bootstrap_operator_table_exact sampleAnalysis).2 (Token.other 0) (by decide)⟩

/-- C3: after bootstrap, every builtin class's member table is exactly the
one canonical member with the canonical signature shape (conversion:
`function(integer-literal) -> self`; monoids: `function(tuple(self, self))
-> self`; comparisons: `function(tuple(self, self)) -> bool`); no builtin
table has any other member. Distinctness of the identity store's builtin
`TypeClass` ids is the §3 invariant of the prior pass. -/
theorem bootstrap_builtin_member_tables_canonical (a : Analysis)
    (hinj : Function.Injective a.builtinClasses) : canonicalBuiltinTables a := by
  unfold canonicalBuiltinTables
  refine ⟨?_, ?_, ?_, ?_, ?_, ?_, ?_, ?_⟩ <;>
    simp [bootstrap, defineConversion, defineBinaryMonoidalOperator,
      defineBinaryCompareOperator, emptyAnnot, selfVar, lookupA_setA, lookupA,
      hinj.eq_iff]

/-- C3 witness: the canonical tables at the concrete (injective) identity
store. -/
theorem bootstrap_builtin_member_tables_canonical_witness :
    Function.Injective sampleAnalysis.builtinClasses ∧
    canonicalBuiltinTables sampleAnalysis :=
  ⟨by decide, bootstrap_builtin_member_tables_canonical sampleAnalysis (by decide)⟩

/-- C7: the builtin bootstrap is a pure function of the identity store and
the initial table state: two runs from the same initial state produce
identical member tables and operator tables (no randomness, no environment
dependence). -/
theorem bootstrap_deterministic (a1 a2 : Analysis) (ann1 ann2 : GlobalAnnot)
    (ha : a1 = a2) (hann : ann1 = ann2) :
    bootstrap a1 ann1 = bootstrap a2 ann2 := by
  rw [ha, hann]

/-- C7 witness: two runs at the concrete inputs coincide. -/
theorem bootstrap_deterministic_witness :
    sampleAnalysis = sampleAnalysis ∧ emptyAnnot = emptyAnnot ∧
    bootstrap sampleAnalysis emptyAnnot = bootstrap sampleAnalysis emptyAnnot :=
  ⟨rfl, rfl, bootstrap_deterministic sampleAnalysis sampleAnalysis emptyAnnot emptyAnnot rfl rfl⟩

/-- C1 counterexample: in class `Show` with member `show` declared at
locations 10, 20 and 30, the single fatal diagnostic is located at the
second occurrence (20), not the last (30), and no member table at all is
stored for the class (`TypeClass` 100) — the claim's "located at the last
occurrence" and "stored table retains the first occurrence's entry" both
fail. -/
theorem userClass_duplicate_lastLocation_counterexample :
    (match endVisit sampleState showClassDup with
     | .error (.fatalDiag code loc _, s') =>
         code = 3195 ∧ loc = 20 ∧ loc ≠ 30 ∧
         s'.reporter.errors = [(3195, 20, dupMemberMsg)] ∧
         lookupA s'.ann.typeClassFunctions 100 = none
     | _ => False) :=
  ⟨rfl, rfl, by decide, rfl, rfl⟩

/-- C1 (amended): for a user class with a duplicated member name, processing
raises exactly one fatal 'member declared multiple times' diagnostic,
located at the first duplicate occurrence (the second occurrence of the
duplicated name), and — because the fatal diagnostic unwinds processing —
no member table is stored for the class: the annotation store is returned
unchanged and the sink gains exactly the one diagnostic. -/
theorem userClass_duplicate_first_reported_no_store (s : State)
    (d : TypeClassDefinition) (fds : List FunctionDefinition) (tc : TypeClass)
    (i : Nat) (fd : FunctionDefinition)
    (hnodes : d.subNodes = fds.map ASTNode.funDef)
    (htc : d.typeClassAnnot = some tc)
    (hdup : firstDupFrom [] fds = some (i, fd)) :
    endVisit s d = .error (.fatalDiag 3195 fd.location dupMemberMsg,
      { typeSystem := ⟨s.typeSystem.freshCounter + 2 * (i + 1)⟩,
        ann := s.ann,
        reporter := ⟨s.reporter.errors ++ [(3195, fd.location, dupMemberMsg)]⟩ }) :=
  endVisit_fatal_spec s d fds tc i fd hnodes htc hdup

/-- C1 witness: the `Show` scenario, where the first duplicate is the member
at index 1, location 20. -/
theorem userClass_duplicate_first_reported_no_store_witness :
    showClassDup.subNodes = showFds.map ASTNode.funDef ∧
    showClassDup.typeClassAnnot = some 100 ∧
    firstDupFrom [] showFds = some (1, ⟨"show", 20⟩) ∧
    endVisit sampleState showClassDup = .error (.fatalDiag 3195 20 dupMemberMsg,
      { typeSystem := ⟨sampleState.typeSystem.freshCounter + 2 * (1 + 1)⟩,
        ann := sampleState.ann,
        reporter := ⟨sampleState.reporter.errors ++ [(3195, 20, dupMemberMsg)]⟩ }) :=
  ⟨rfl, rfl, by decide,
    userClass_duplicate_first_reported_no_store sampleState showClassDup showFds 100 1
      ⟨"show", 20⟩ rfl rfl (by decide)⟩

/-- C4: for a user class whose member names are pairwise distinct, `endVisit`
succeeds and stores a table with exactly one entry per declared name, each
entry a function type between two fresh type variables, all the variables
pairwise distinct within a member and across the class's members. -/
theorem userClass_distinct_names_table (s : State) (d : TypeClassDefinition)
    (fds : List FunctionDefinition) (tc : TypeClass)
    (hnodes : d.subNodes = fds.map ASTNode.funDef)
    (htc : d.typeClassAnnot = some tc)
    (hnodup : (fds.map FunctionDefinition.name).Nodup) :
    distinctMembersTableSpec s d fds tc := by
  have hdup : firstDupFrom [] fds = none := by
    rw [firstDupFrom_eq_none_iff]
    exact ⟨by simp, hnodup⟩
  refine ⟨_, endVisit_ok_spec s d fds tc hnodes htc hdup, ?_,
    keysOf_memberTableFrom fds s.typeSystem.freshCounter,
    memberTableFrom_entry_shape fds s.typeSystem.freshCounter,
    sigVars_memberTableFrom_nodup fds s.typeSystem.freshCounter⟩
  show lookupA (setA s.ann.typeClassFunctions tc
      (memberTableFrom s.typeSystem.freshCounter fds)) tc =
    some (memberTableFrom s.typeSystem.freshCounter fds)
  rw [lookupA_setA]
  simp

/-- C4 witness: the `Ord` scenario with distinct members `cmp1`, `cmp2`. -/
theorem userClass_distinct_names_table_witness :
    ordClass.subNodes = ordFds.map ASTNode.funDef ∧
    ordClass.typeClassAnnot = some 200 ∧
    (ordFds.map FunctionDefinition.name).Nodup ∧
    distinctMembersTableSpec sampleState ordClass ordFds 200 :=
  ⟨rfl, rfl, by decide,
    userClass_distinct_names_table sampleState ordClass ordFds 200 rfl rfl (by decide)⟩

/-- C8: under the pipeline preconditions — the prior pass assigned the class
a `TypeClass` and every member node is a function definition — the internal
assertion branches are unreachable: `endVisit` never fails with an internal
assertion failure (and, the assertions producing no user diagnostics, the
only diagnostic it can raise is the duplicate-member one). -/
theorem endVisit_no_internal_assert (s : State) (d : TypeClassDefinition)
    (fds : List FunctionDefinition) (tc : TypeClass)
    (hnodes : d.subNodes = fds.map ASTNode.funDef)
    (htc : d.typeClassAnnot = some tc) :
    ∀ s', endVisit s d ≠ .error (.internalAssert, s') := by
  intro s' hcontra
  cases hdup : firstDupFrom [] fds with
  | none =>
    rw [endVisit_ok_spec s d fds tc hnodes htc hdup] at hcontra
    exact Except.noConfusion hcontra
  | some p =>
    obtain ⟨i, fd⟩ := p
    rw [endVisit_fatal_spec s d fds tc i fd hnodes htc hdup] at hcontra
    injection hcontra with h1
    injection h1 with h2 h3
    exact Failure.noConfusion h2

/-- C8 witness: the well-formed `Show` class (even though it raises a user
diagnostic) never fails the internal assertions. -/
theorem endVisit_no_internal_assert_witness :
    showClassDup.subNodes = showFds.map ASTNode.funDef ∧
    showClassDup.typeClassAnnot = some 100 ∧
    endVisit sampleState showClassDup ≠ .error (.internalAssert, sampleState) :=
  ⟨rfl, rfl,
    endVisit_no_internal_assert sampleState showClassDup showFds 100 rfl rfl sampleState⟩

/-- C9: when a duplicate member name is detected, the fatal diagnostic
unwinds `endVisit` before the completed table is stored, so the per-class
member-table map is unchanged — in particular unchanged at that class's
`TypeClass`. -/
theorem duplicate_no_entry_stored (s : State) (d : TypeClassDefinition)
    (fds : List FunctionDefinition) (tc : TypeClass) (i : Nat) (fd : FunctionDefinition)
    (hnodes : d.subNodes = fds.map ASTNode.funDef)
    (htc : d.typeClassAnnot = some tc)
    (hdup : firstDupFrom [] fds = some (i, fd)) :
    ∃ f s', endVisit s d = .error (f, s') ∧
      s'.ann.typeClassFunctions = s.ann.typeClassFunctions ∧
      lookupA s'.ann.typeClassFunctions tc = lookupA s.ann.typeClassFunctions tc :=
  ⟨_, _, endVisit_fatal_spec s d fds tc i fd hnodes htc hdup, rfl, rfl⟩

/-- C9 witness: the `Show` scenario — no entry appears under `TypeClass` 100. -/
theorem duplicate_no_entry_stored_witness :
    firstDupFrom [] showFds = some (1, ⟨"show", 20⟩) ∧
    (∃ f s', endVisit sampleState showClassDup = .error (f, s') ∧
      s'.ann.typeClassFunctions = sampleState.ann.typeClassFunctions ∧
      lookupA s'.ann.typeClassFunctions 100 =
        lookupA sampleState.ann.typeClassFunctions 100) :=
  ⟨by decide,
    duplicate_no_entry_stored sampleState showClassDup showFds 100 1 ⟨"show", 20⟩
      rfl rfl (by decide)⟩

/-- C10: for every visited member — including a duplicate whose entry is
discarded — two fresh type variables are allocated before the duplicate
check, so the fresh-variable counter advances by exactly two per visited
member: all members when the names are distinct, every member up to and
including the first duplicate otherwise. -/
theorem fresh_counter_two_per_visited_member (s : State) (d : TypeClassDefinition)
    (fds : List FunctionDefinition) (tc : TypeClass)
    (hnodes : d.subNodes = fds.map ASTNode.funDef)
    (htc : d.typeClassAnnot = some tc) :
    (resultState (endVisit s d)).typeSystem.freshCounter =
      s.typeSystem.freshCounter + 2 * processedCount fds := by
  unfold processedCount
  cases hdup : firstDupFrom [] fds with
  | none =>
    rw [endVisit_ok_spec s d fds tc hnodes htc hdup]
    rfl
  | some p =>
    obtain ⟨i, fd⟩ := p
    rw [endVisit_fatal_spec s d fds tc i fd hnodes htc hdup]
    rfl

/-- C10 witness: in the `Show` scenario the counter advances by 2·2 = 4: two
variables for the kept `show` and two for the discarded duplicate. -/
theorem fresh_counter_two_per_visited_member_witness :
    showClassDup.subNodes = showFds.map ASTNode.funDef ∧
    showClassDup.typeClassAnnot = some 100 ∧
    (resultState (endVisit sampleState showClassDup)).typeSystem.freshCounter =
      sampleState.typeSystem.freshCounter + 2 * processedCount showFds :=
  ⟨rfl, rfl,
    fresh_counter_two_per_visited_member sampleState showClassDup showFds 100 rfl rfl⟩

/-- C5: `analyze` runs the traversal and returns `true` iff the shared sink
holds no error afterwards; it never resets the sink. When it returns
normally no fatal diagnostic was raised during the run (a fatal one
propagates instead of returning), the sink is exactly as before, and — when
the sink started clean — the result is `true`. When a failure propagates
the sink still holds everything it held before plus the diagnostics of this
run. -/
theorem analyze_returns_sink_state (s : State) (su : SourceUnit) :
    analyzeSinkSpec s su := by
  constructor
  · intro s' ok h
    unfold analyze at h
    split at h
    · exact absurd h (by simp)
    · rename_i smid hrun
      simp only [Except.ok.injEq, Prod.mk.injEq] at h
      obtain ⟨hs, hok⟩ := h
      subst hs
      subst hok
      have hrep : smid.reporter = s.reporter :=
        runTraversal_ok_reporter su.classes s smid hrun
      refine ⟨rfl, hrep, ?_⟩
      intro he
      rw [hrep]
      simp [ErrorReporter.hasErrors, he]
  · intro f s' h
    unfold analyze at h
    split at h
    · rename_i e he
      obtain ⟨f', smid⟩ := e
      simp only [Except.error.injEq] at h
      injection h with h1 h2
      exact h2 ▸ runTraversal_error_reporter su.classes s f' smid he
    · exact absurd h (by simp)

/-- C5 witness: analyzing the clean one-class unit returns `true`, with the
sink untouched. -/
theorem analyze_returns_sink_state_witness :
    analyze sampleState sampleUnit = .ok (sampleAfter, true) ∧
    (true = !sampleAfter.reporter.hasErrors ∧
     sampleAfter.reporter = sampleState.reporter ∧
     (sampleState.reporter.errors = [] → true = true)) :=
  ⟨rfl, (analyze_returns_sink_state sampleState sampleUnit).1 sampleAfter true rfl⟩

/-- C6: storing a user class's completed table writes only the entry keyed
by that class's `TypeClass` — the operator table and every other class's
member table are unchanged (and on failure the whole store is unchanged) —
and no traversal after bootstrap ever mutates the operator-binding table. -/
theorem store_write_is_framed (s : State) (d : TypeClassDefinition) (tc : TypeClass)
    (su : SourceUnit) (htc : d.typeClassAnnot = some tc) :
    endVisitFrameSpec s d tc ∧
    (analyzeState (analyze s su)).ann.operators = s.ann.operators := by
  refine ⟨⟨?_, ?_⟩, ?_⟩
  · intro s' h
    refine ⟨endVisit_ok_operators s d s' h, ?_⟩
    intro tc' hne
    obtain ⟨tbl, htbl⟩ := endVisit_ok_tcf s d tc s' htc h
    rw [htbl, lookupA_setA, if_neg (fun hh => hne hh.symm)]
  · intro f s' h
    exact (endVisit_error_state s d f s' h).1
  · rw [analyzeState_eq_run]
    exact runTraversal_operators su.classes s

/-- C6 witness: the `Ord` class write is framed, and analyzing the unit
leaves the bootstrap operator table intact. -/
theorem store_write_is_framed_witness :
    ordClass.typeClassAnnot = some 200 ∧
    (endVisitFrameSpec sampleState ordClass 200 ∧
     (analyzeState (analyze sampleState sampleUnit)).ann.operators =
       sampleState.ann.operators) :=
  ⟨rfl, store_write_is_framed sampleState ordClass 200 sampleUnit rfl⟩

end Solidity
